import Mathlib

/-!
# MicroBlaze-V peripheral drivers: UART-lite and timer

A shallow embedding of `src/src/peripherals.c`, `src/include/peripherals.h`,
`timer_delay` of `src/examples/timer_test.c` and `problematic_function` of
`src/examples/debug_example.c`.

Every `volatile uint32_t` access is an interaction with a device: a read may
return a different value each time and may change the device, a write changes
the device.  A driver call yields the device after the call, the register
accesses it made (in program order) and its return value.  A busy-wait loop
takes a budget of iterations; the return value is `none` when the budget ran
out while the loop was still going round.

`char` is unsigned on the RISC-V target of MicroBlaze-V, so a `char` is a
natural number below 256.
-/

namespace MicroblazeV

/-! ## Memory-mapped register accesses -/

/-- One access to a memory-mapped register. -/
inductive Event where
  | load (addr val : Nat)
  | store (addr val : Nat)
  deriving DecidableEq, Repr

/-- A device behind the bus: what a read returns (and the device afterwards),
and what a write makes of the device. -/
structure Device (σ : Type) where
  rd : σ → Nat → Nat × σ
  wr : σ → Nat → Nat → σ

/-- Result of running driver code: the return value (`none`: a loop used up
its budget), the device afterwards, and the register accesses in order. -/
structure Run (σ α : Type) where
  ret : Option α
  hw : σ
  trace : List Event

/-- Sequencing of two pieces of driver code. -/
def Run.andThen {σ α β : Type} (r : Run σ α) (f : α → σ → Run σ β) : Run σ β :=
  match r.ret with
  | none => ⟨none, r.hw, r.trace⟩
  | some a => ⟨(f a r.hw).ret, (f a r.hw).hw, r.trace ++ (f a r.hw).trace⟩

/-- The read `*reg` through a `volatile uint32_t *`. -/
def load32 {σ : Type} (d : Device σ) (reg : Nat) (s : σ) : Run σ Nat :=
  ⟨some ((d.rd s reg).1 % 2 ^ 32), (d.rd s reg).2, [Event.load reg ((d.rd s reg).1 % 2 ^ 32)]⟩

/-- The write `*reg = val` through a `volatile uint32_t *`. -/
def store32 {σ : Type} (d : Device σ) (reg val : Nat) (s : σ) : Run σ Unit :=
  ⟨some (), d.wr s reg (val % 2 ^ 32), [Event.store reg (val % 2 ^ 32)]⟩

/-- The loop `while (busy(*reg));`, at most `budget` polls. -/
def spinWhile {σ : Type} (d : Device σ) (reg : Nat) (busy : Nat → Bool) : Nat → σ → Run σ Unit
  | 0, s => ⟨none, s, []⟩
  | budget + 1, s =>
    (load32 d reg s).andThen fun v s1 =>
      if busy v then spinWhile d reg busy budget s1 else ⟨some (), s1, []⟩

/-! ## peripherals.h -/

def UARTLITE_BASE : Nat := 0x40600000
def UART16550_BASE : Nat := 0x44A11000
def TIMER_BASE : Nat := 0x41C00000
def GPIO_BASE : Nat := 0x40000000

def UARTLITE_RX_FIFO : Nat := UARTLITE_BASE + 0x00
def UARTLITE_TX_FIFO : Nat := UARTLITE_BASE + 0x04
def UARTLITE_STAT_REG : Nat := UARTLITE_BASE + 0x08
def UARTLITE_CTRL_REG : Nat := UARTLITE_BASE + 0x0C

def UARTLITE_SR_RX_FIFO_VALID_DATA : Nat := 0x01
def UARTLITE_SR_RX_FIFO_FULL : Nat := 0x02
def UARTLITE_SR_TX_FIFO_EMPTY : Nat := 0x04
def UARTLITE_SR_TX_FIFO_FULL : Nat := 0x08

def TIMER_TCSR0 : Nat := TIMER_BASE + 0x00
def TIMER_TLR0 : Nat := TIMER_BASE + 0x04
def TIMER_TCR0 : Nat := TIMER_BASE + 0x08

def TIMER_CSR_ENABLE_TMR : Nat := 0x00000080
def TIMER_CSR_ENABLE_INT : Nat := 0x00000040
def TIMER_CSR_LOAD_TMR : Nat := 0x00000020
def TIMER_CSR_AUTO_RELOAD : Nat := 0x00000010
def TIMER_CSR_DOWN_COUNT : Nat := 0x00000002

/-! ## peripherals.c -/

/-- The driver `uartlite_putc`: `while (*status & UARTLITE_SR_TX_FIFO_FULL); *tx_fifo = c;`. -/
def uartlite_putc {σ : Type} (d : Device σ) (budget : Nat) (c : Nat) (s : σ) : Run σ Unit :=
  (spinWhile d UARTLITE_STAT_REG (fun v => v &&& UARTLITE_SR_TX_FIFO_FULL != 0) budget s).andThen
    fun _ s1 => store32 d UARTLITE_TX_FIFO (c % 256) s1

/-- The driver `uartlite_puts`: `while (*str) uartlite_putc(*str++);`.  The list is the
bytes at `str`; memory after them reads as the NUL terminator, as for a string literal. -/
def uartlite_puts {σ : Type} (d : Device σ) (budget : Nat) : List Nat → σ → Run σ Unit
  | [], s => ⟨some (), s, []⟩
  | c :: rest, s =>
    if c % 256 = 0 then ⟨some (), s, []⟩
    else (uartlite_putc d budget c s).andThen fun _ s1 => uartlite_puts d budget rest s1

/-- The driver `uartlite_getc`:
`while (!(*status & UARTLITE_SR_RX_FIFO_VALID_DATA)); return (char)*rx_fifo;`. -/
def uartlite_getc {σ : Type} (d : Device σ) (budget : Nat) (s : σ) : Run σ Nat :=
  (spinWhile d UARTLITE_STAT_REG (fun v => !(v &&& UARTLITE_SR_RX_FIFO_VALID_DATA != 0)) budget s).andThen
    fun _ s1 => (load32 d UARTLITE_RX_FIFO s1).andThen fun v s2 => ⟨some (v % 256), s2, []⟩

/-- The driver `timer_init`: `*tlr = reload_value; *tcsr = ENABLE_TMR | AUTO_RELOAD | DOWN_COUNT;`. -/
def timer_init {σ : Type} (d : Device σ) (reload_value : Nat) (s : σ) : Run σ Unit :=
  (store32 d TIMER_TLR0 reload_value s).andThen fun _ s1 =>
    store32 d TIMER_TCSR0 (TIMER_CSR_ENABLE_TMR ||| TIMER_CSR_AUTO_RELOAD ||| TIMER_CSR_DOWN_COUNT) s1

/-- The driver `timer_read`: `return *tcr;`. -/
def timer_read {σ : Type} (d : Device σ) (s : σ) : Run σ Nat :=
  load32 d TIMER_TCR0 s

/-- The driver `delay_ms`: `uint32_t cycles = ms * 100000; timer_init(cycles);`
`while (!(*tcsr & 0x00000100));`. -/
def delay_ms {σ : Type} (d : Device σ) (budget : Nat) (ms : Nat) (s : σ) : Run σ Unit :=
  let cycles := (ms * 100000) % 2 ^ 32
  (timer_init d cycles s).andThen fun _ s1 =>
    spinWhile d TIMER_TCSR0 (fun v => !(v &&& 0x00000100 != 0)) budget s1

/-! ## examples/timer_test.c -/

/-- The routine `timer_delay`: `*tlr = cycles; *tcsr = 0x00000092; while (!(*tcsr & 0x100));`. -/
def timer_delay {σ : Type} (d : Device σ) (budget : Nat) (cycles : Nat) (s : σ) : Run σ Unit :=
  (store32 d TIMER_TLR0 cycles s).andThen fun _ s1 =>
    (store32 d TIMER_TCSR0 0x00000092 s1).andThen fun _ s2 =>
      spinWhile d TIMER_TCSR0 (fun v => !(v &&& 0x100 != 0)) budget s2

/-! ## examples/debug_example.c -/

/-- The globals of `debug_example.c`.  `debug_buffer` is addressed by the index used in
`debug_buffer[i]`, the array itself being the indices 0 to 63; `stored` lists, in order,
the indices the program has assigned through `debug_buffer[i] = ...`. -/
structure Globals where
  debug_counter : Int
  debug_buffer : Int → Nat
  stored : List Int

/-- The assignment `debug_buffer[i] = v`. -/
def Globals.assign (g : Globals) (i : Int) (v : Nat) : Globals :=
  { g with debug_buffer := Function.update g.debug_buffer i v, stored := g.stored ++ [i] }

/-- The bytes of a string literal, without its NUL terminator. -/
def cstr (lit : String) : List Nat :=
  lit.toList.map Char.toNat

/-- The loop `for (int i = 0; i <= value && i < 64; i++) debug_buffer[i] = 'A' + (i % 26);`
of `problematic_function`, from the test of `i` on; at most `budget` tests of the condition. -/
def fill_loop (value : Int) : Nat → Int → Globals → Option Globals
  | 0, _, _ => none
  | budget + 1, i, g =>
    if i ≤ value ∧ i < 64 then
      fill_loop value budget (i + 1) (g.assign i ((65 + Int.tmod i 26) % 256).toNat)
    else some g

/-- The loop `for (int i = 0; i < value && i < 64; i++) uartlite_putc(debug_buffer[i]);`
of `problematic_function`, from the test of `i` on; at most `budget` tests of the condition. -/
def print_loop {σ : Type} (d : Device σ) (spin : Nat) (value : Int) (g : Globals) :
    Nat → Int → σ → Run σ Unit
  | 0, _, s => ⟨none, s, []⟩
  | budget + 1, i, s =>
    if i < value ∧ i < 64 then
      (uartlite_putc d spin (g.debug_buffer i) s).andThen fun _ s1 =>
        print_loop d spin value g budget (i + 1) s1
    else ⟨some (), s, []⟩

/-- The routine `problematic_function` of `debug_example.c`; it returns the globals it leaves.
Every loop gets the same budget.  `debug_counter += value` is the sum of integers: signed
overflow is undefined in C, so no wrap-around is modelled. -/
def problematic_function {σ : Type} (d : Device σ) (budget : Nat) (value : Int) (g : Globals)
    (s : σ) : Run σ Globals :=
  if value < 0 then
    (uartlite_puts d budget (cstr "Error: Negative value!\n") s).andThen fun _ s1 =>
      ⟨some g, s1, []⟩
  else
    match fill_loop value budget 0 g with
    | none => ⟨none, s, []⟩
    | some g1 =>
      let g2 : Globals := { g1 with debug_counter := g1.debug_counter + value }
      (uartlite_puts d budget (cstr "Debug buffer: ") s).andThen fun _ s1 =>
        (print_loop d budget value g2 budget 0 s1).andThen fun _ s2 =>
          (uartlite_puts d budget (cstr "\n") s2).andThen fun _ s3 =>
            ⟨some g2, s3, []⟩

/-! ## Simulated devices -/

/-- A plain register block: a read returns what the register holds, a write replaces it. -/
def regBlock : Device (Nat → Nat) where
  rd := fun regs a => (regs a, regs)
  wr := fun regs a v => Function.update regs a v

/-- A register block with a script: the reads of the register `polled` return the values of
the script one after the other (and then what the register holds); each scripted value is
stored in the block as the hardware's new value of that register. -/
structure Sim where
  regs : Nat → Nat
  script : List Nat

/-- The scripted register block as a device. -/
def simDev (polled : Nat) : Device Sim where
  rd := fun s a =>
    if a = polled then
      match s.script with
      | [] => (s.regs a, s)
      | v :: rest => (v, ⟨Function.update s.regs a v, rest⟩)
    else (s.regs a, s)
  wr := fun s a v => ⟨Function.update s.regs a v, s.script⟩

/-- A UART whose transmit FIFO is full for the next `n` status polls (`n` is the state):
a write to the transmit FIFO makes it full for two polls. Status reads return TX-full (0x08)
while busy and TX-empty (0x04) afterwards; every other register reads 0. -/
def busyUart : Device Nat where
  rd := fun n a =>
    if a = UARTLITE_STAT_REG then
      (if n = 0 then UARTLITE_SR_TX_FIFO_EMPTY else UARTLITE_SR_TX_FIFO_FULL, n - 1)
    else (0, n)
  wr := fun n a _ => if a = UARTLITE_TX_FIFO then 2 else n

/-! ## Observations on devices and traces -/

/-- The device after `n` consecutive reads of `reg`. -/
def afterReads {σ : Type} (d : Device σ) (reg : Nat) : Nat → σ → σ
  | 0, s => s
  | n + 1, s => afterReads d reg n (d.rd s reg).2

/-- The 32-bit value that read number `n` (from 0) of consecutive reads of `reg` returns. -/
def readAt {σ : Type} (d : Device σ) (reg : Nat) (n : Nat) (s : σ) : Nat :=
  (d.rd (afterReads d reg n s) reg).1 % 2 ^ 32

/-- The trace of `n` consecutive reads of `reg`. -/
def polls {σ : Type} (d : Device σ) (reg : Nat) (n : Nat) (s : σ) : List Event :=
  (List.range n).map fun i => Event.load reg (readAt d reg i s)

/-- The writes of a trace, in order. -/
def stores (t : List Event) : List Event :=
  t.filter fun e => match e with
    | Event.store _ _ => true
    | Event.load _ _ => false

/-- The values written to the transmit FIFO in a trace, in order. -/
def txBytes (t : List Event) : List Nat :=
  t.filterMap fun e => match e with
    | Event.store a v => if a = UARTLITE_TX_FIFO then some v else none
    | Event.load _ _ => none

/-- The number of reads of register `reg` in a trace. -/
def loadsOf (reg : Nat) (t : List Event) : Nat :=
  t.countP fun e => match e with
    | Event.load a _ => decide (a = reg)
    | Event.store _ _ => false

/-- The transmit FIFO of the device stops being full after finitely many status polls,
whatever state the device is in. -/
def TxDrains {σ : Type} (d : Device σ) : Prop :=
  ∀ s : σ, ∃ k, readAt d UARTLITE_STAT_REG k s &&& UARTLITE_SR_TX_FIFO_FULL = 0

/-- The TX-FIFO-full bit is eventually read clear at each character of `uartlite_puts str`
started on the device `s`: for each byte before the terminator there is a first status
poll `k` with the bit clear, and the same holds for the rest of the string on the device
as that poll and the write of the byte leave it. -/
def TxClearsAlong {σ : Type} (d : Device σ) : List Nat → σ → Prop
  | [], _ => True
  | c :: rest, s =>
    c % 256 = 0 ∨
    ∃ k, (∀ i < k, readAt d UARTLITE_STAT_REG i s &&& UARTLITE_SR_TX_FIFO_FULL ≠ 0) ∧
      readAt d UARTLITE_STAT_REG k s &&& UARTLITE_SR_TX_FIFO_FULL = 0 ∧
      TxClearsAlong d rest
        (d.wr (afterReads d UARTLITE_STAT_REG (k + 1) s) UARTLITE_TX_FIFO (c % 256))


/-- The device after the two writes that arm the timer with reload value `x`. -/
def armed {σ : Type} (d : Device σ) (x : Nat) (s : σ) : σ :=
  d.wr (d.wr s TIMER_TLR0 x) TIMER_TCSR0 0x92

/-- The values written to the timer control/status register in a trace, in order. -/
def csrWrites (t : List Event) : List Nat :=
  t.filterMap fun e => match e with
    | Event.store a v => if a = TIMER_TCSR0 then some v else none
    | Event.load _ _ => none

/-! ## Lemmas on sequencing and polling -/

theorem andThen_some {σ α β : Type} (a : α) (h : σ) (t : List Event) (f : α → σ → Run σ β) :
    Run.andThen ⟨some a, h, t⟩ f = ⟨(f a h).ret, (f a h).hw, t ++ (f a h).trace⟩ := rfl

theorem andThen_none {σ α β : Type} (h : σ) (t : List Event) (f : α → σ → Run σ β) :
    Run.andThen (⟨none, h, t⟩ : Run σ α) f = ⟨none, h, t⟩ := rfl

theorem readAt_succ {σ : Type} (d : Device σ) (reg n : Nat) (s : σ) :
    readAt d reg (n + 1) s = readAt d reg n (d.rd s reg).2 := rfl

theorem polls_zero {σ : Type} (d : Device σ) (reg : Nat) (s : σ) : polls d reg 0 s = [] := rfl

theorem polls_succ {σ : Type} (d : Device σ) (reg n : Nat) (s : σ) :
    polls d reg (n + 1) s
      = Event.load reg ((d.rd s reg).1 % 2 ^ 32) :: polls d reg n (d.rd s reg).2 := by
  simp [polls, List.range_succ_eq_map, readAt, afterReads, Function.comp_def]

theorem stores_append (t u : List Event) : stores (t ++ u) = stores t ++ stores u := by
  simp [stores]

theorem stores_polls {σ : Type} (d : Device σ) (reg n : Nat) (s : σ) :
    stores (polls d reg n s) = [] := by
  simp [stores, polls]

/-- While every poll finds the register busy, the loop only polls. -/
theorem spinWhile_busy {σ : Type} (d : Device σ) (reg : Nat) (busy : Nat → Bool) :
    ∀ (n : Nat) (s : σ), (∀ i < n, busy (readAt d reg i s) = true) →
      spinWhile d reg busy n s = ⟨none, afterReads d reg n s, polls d reg n s⟩ := by
  intro n
  induction n with
  | zero => intro s _; rfl
  | succ n ih =>
    intro s h
    have h0 : busy ((d.rd s reg).1 % 2 ^ 32) = true := h 0 (Nat.succ_pos n)
    have hrest : ∀ i < n, busy (readAt d reg i (d.rd s reg).2) = true := fun i hi => by
      have := h (i + 1) (Nat.succ_lt_succ hi)
      rwa [readAt_succ] at this
    rw [polls_succ]
    simp only [spinWhile, load32, andThen_some, h0, if_true, ih _ hrest, afterReads,
      List.singleton_append]

/-- Once a poll finds the register not busy, the loop ends right there. -/
theorem spinWhile_done {σ : Type} (d : Device σ) (reg : Nat) (busy : Nat → Bool) :
    ∀ (k : Nat) (s : σ) (budget : Nat), (∀ i < k, busy (readAt d reg i s) = true) →
      busy (readAt d reg k s) = false → k < budget →
      spinWhile d reg busy budget s
        = ⟨some (), afterReads d reg (k + 1) s, polls d reg (k + 1) s⟩ := by
  intro k
  induction k with
  | zero =>
    intro s budget _ hk hb
    obtain ⟨m, rfl⟩ : ∃ m, budget = m + 1 := ⟨budget - 1, by omega⟩
    have h0 : busy ((d.rd s reg).1 % 2 ^ 32) = false := hk
    rw [polls_succ]
    simp only [spinWhile, load32, andThen_some, h0, afterReads, polls_zero,
      List.singleton_append]
    rfl
  | succ k ih =>
    intro s budget h hk hb
    obtain ⟨m, rfl⟩ : ∃ m, budget = m + 1 := ⟨budget - 1, by omega⟩
    have h0 : busy ((d.rd s reg).1 % 2 ^ 32) = true := h 0 (Nat.succ_pos k)
    have hrest : ∀ i < k, busy (readAt d reg i (d.rd s reg).2) = true := fun i hi => by
      have := h (i + 1) (Nat.succ_lt_succ hi)
      rwa [readAt_succ] at this
    have hk2 : busy (readAt d reg k (d.rd s reg).2) = false := by rwa [readAt_succ] at hk
    rw [polls_succ]
    simp only [spinWhile, load32, andThen_some, h0, if_true,
      ih _ m hrest hk2 (by omega), afterReads, List.singleton_append]

/-! ## The UART-lite driver -/

/-- C1: for every byte `b` and every device, hence every sequence of status values:
(1) for every `n`, if the first `n` status reads all have the TX-FIFO-full bit (0x08) set,
then `uartlite_putc b` run for `n` polls has not returned and has only read the status
register, with no write to the transmit FIFO nor to anything else, whether or not the bit
ever clears; (2) if moreover the next status read, number `k`, has the bit clear, then with
any budget above `k` the call makes exactly one write, of `b` to the transmit FIFO, right
after that read, and returns with no further register access. -/
theorem uartlite_putc_waits_then_writes_once {σ : Type} (d : Device σ) (b : Nat) (hb : b < 256)
    (s : σ) :
    (∀ n, (∀ i < n, readAt d UARTLITE_STAT_REG i s &&& UARTLITE_SR_TX_FIFO_FULL ≠ 0) →
      uartlite_putc d n b s
        = ⟨none, afterReads d UARTLITE_STAT_REG n s, polls d UARTLITE_STAT_REG n s⟩ ∧
      stores (uartlite_putc d n b s).trace = [] ∧
      txBytes (uartlite_putc d n b s).trace = []) ∧
    (∀ k, (∀ i < k, readAt d UARTLITE_STAT_REG i s &&& UARTLITE_SR_TX_FIFO_FULL ≠ 0) →
      readAt d UARTLITE_STAT_REG k s &&& UARTLITE_SR_TX_FIFO_FULL = 0 →
      ∀ budget, k < budget →
        uartlite_putc d budget b s
          = ⟨some (), d.wr (afterReads d UARTLITE_STAT_REG (k + 1) s) UARTLITE_TX_FIFO b,
              polls d UARTLITE_STAT_REG (k + 1) s ++ [Event.store UARTLITE_TX_FIFO b]⟩ ∧
        stores (uartlite_putc d budget b s).trace = [Event.store UARTLITE_TX_FIFO b] ∧
        txBytes (uartlite_putc d budget b s).trace = [b]) := by
  have hb32 : b % 256 % 2 ^ 32 = b := by omega
  have hpolls : ∀ n, txBytes (polls d UARTLITE_STAT_REG n s) = [] := by
    intro n
    simp [txBytes, polls]
  constructor
  · intro n hfull
    have h := spinWhile_busy d UARTLITE_STAT_REG (fun v => v &&& UARTLITE_SR_TX_FIFO_FULL != 0)
      n s (fun i hi => by simpa using hfull i hi)
    have e : uartlite_putc d n b s
        = ⟨none, afterReads d UARTLITE_STAT_REG n s, polls d UARTLITE_STAT_REG n s⟩ := by
      simp only [uartlite_putc, h, andThen_none]
    refine ⟨e, ?_, ?_⟩
    · rw [e]; exact stores_polls d UARTLITE_STAT_REG n s
    · rw [e]; exact hpolls n
  · intro k hfull hclear budget hlt
    have h := spinWhile_done d UARTLITE_STAT_REG (fun v => v &&& UARTLITE_SR_TX_FIFO_FULL != 0)
      k s budget (fun i hi => by simpa using hfull i hi) (by simpa using hclear) hlt
    have e : uartlite_putc d budget b s
        = ⟨some (), d.wr (afterReads d UARTLITE_STAT_REG (k + 1) s) UARTLITE_TX_FIFO b,
            polls d UARTLITE_STAT_REG (k + 1) s ++ [Event.store UARTLITE_TX_FIFO b]⟩ := by
      simp only [uartlite_putc, h, andThen_some, store32, hb32]
    refine ⟨e, ?_, ?_⟩
    · rw [e]
      simp only [stores_append, stores_polls, List.nil_append]
      rfl
    · rw [e]
      simp only [txBytes] at hpolls ⊢
      rw [List.filterMap_append, hpolls]
      simp

/-- C1 at concrete inputs, byte 0x41: a transmit FIFO that is full for two polls (no write
after two polls, one write after the third), and a transmit FIFO that stays full for ever
(five polls, no write, no return). -/
theorem uartlite_putc_waits_then_writes_once_witness :
    uartlite_putc busyUart 2 0x41 2
        = ⟨none, 0, [Event.load UARTLITE_STAT_REG 8, Event.load UARTLITE_STAT_REG 8]⟩ ∧
    uartlite_putc busyUart 3 0x41 2
        = ⟨some (), 2, [Event.load UARTLITE_STAT_REG 8, Event.load UARTLITE_STAT_REG 8,
            Event.load UARTLITE_STAT_REG 4, Event.store UARTLITE_TX_FIFO 0x41]⟩ ∧
    (uartlite_putc regBlock 5 0x41 (fun _ => 0x08)).ret = none ∧
    (uartlite_putc regBlock 5 0x41 (fun _ => 0x08)).trace
        = [Event.load UARTLITE_STAT_REG 8, Event.load UARTLITE_STAT_REG 8,
            Event.load UARTLITE_STAT_REG 8, Event.load UARTLITE_STAT_REG 8,
            Event.load UARTLITE_STAT_REG 8] ∧
    txBytes (uartlite_putc regBlock 5 0x41 (fun _ => 0x08)).trace = [] :=
  have h := uartlite_putc_waits_then_writes_once busyUart 0x41 (by decide) 2
  have hnever := (uartlite_putc_waits_then_writes_once regBlock 0x41 (by decide)
    (fun _ => 0x08)).1 5 (by decide)
  ⟨(h.1 2 (by decide)).1, (h.2 2 (by decide) (by decide) 3 (by decide)).1,
    congrArg Run.ret hnever.1, congrArg Run.trace hnever.1, hnever.2.2⟩

/-- C3: if the first `k` status reads all have the RX-FIFO-valid-data bit (0x01) clear and
the next one (the poll at position `k + 1`) has it set, then `uartlite_getc` stopped after
any number `budget ≤ k` of polls has only read the status register, and with the poll at
position `k + 1` it reads the receive FIFO exactly once, right after that poll, and returns
the low 8 bits of the 32-bit value read there; it makes no register write. -/
theorem uartlite_getc_waits_then_reads_once {σ : Type} (d : Device σ) (s : σ) (k : Nat)
    (hempty : ∀ i < k, readAt d UARTLITE_STAT_REG i s &&& UARTLITE_SR_RX_FIFO_VALID_DATA = 0)
    (hvalid : readAt d UARTLITE_STAT_REG k s &&& UARTLITE_SR_RX_FIFO_VALID_DATA ≠ 0) :
    (∀ budget, budget ≤ k →
      uartlite_getc d budget s
        = ⟨none, afterReads d UARTLITE_STAT_REG budget s, polls d UARTLITE_STAT_REG budget s⟩) ∧
    (∀ budget, k < budget →
      uartlite_getc d budget s
        = ⟨some (readAt d UARTLITE_RX_FIFO 0 (afterReads d UARTLITE_STAT_REG (k + 1) s) % 256),
            (d.rd (afterReads d UARTLITE_STAT_REG (k + 1) s) UARTLITE_RX_FIFO).2,
            polls d UARTLITE_STAT_REG (k + 1) s
              ++ [Event.load UARTLITE_RX_FIFO
                    (readAt d UARTLITE_RX_FIFO 0 (afterReads d UARTLITE_STAT_REG (k + 1) s))]⟩ ∧
      stores (uartlite_getc d budget s).trace = [] ∧
      loadsOf UARTLITE_RX_FIFO (uartlite_getc d budget s).trace = 1) := by
  constructor
  · intro budget hle
    have h := spinWhile_busy d UARTLITE_STAT_REG
      (fun v => !(v &&& UARTLITE_SR_RX_FIFO_VALID_DATA != 0))
      budget s (fun i hi => by simpa using hempty i (by omega))
    simp only [uartlite_getc, h, andThen_none]
  · intro budget hlt
    have h := spinWhile_done d UARTLITE_STAT_REG
      (fun v => !(v &&& UARTLITE_SR_RX_FIFO_VALID_DATA != 0))
      k s budget (fun i hi => by simpa using hempty i hi) (by simpa using hvalid) hlt
    have e : uartlite_getc d budget s
        = ⟨some (readAt d UARTLITE_RX_FIFO 0 (afterReads d UARTLITE_STAT_REG (k + 1) s) % 256),
            (d.rd (afterReads d UARTLITE_STAT_REG (k + 1) s) UARTLITE_RX_FIFO).2,
            polls d UARTLITE_STAT_REG (k + 1) s
              ++ [Event.load UARTLITE_RX_FIFO
                    (readAt d UARTLITE_RX_FIFO 0 (afterReads d UARTLITE_STAT_REG (k + 1) s))]⟩ := by
      simp only [uartlite_getc, h, andThen_some, load32, readAt, afterReads, List.append_nil]
    refine ⟨e, ?_, ?_⟩
    · rw [e]
      simp [stores, polls]
    · rw [e]
      simp [loadsOf, polls, UARTLITE_RX_FIFO, UARTLITE_STAT_REG, List.countP_eq_zero]

/-- C3 at a concrete input: the status reads 0x00, 0x04, 0x05 (valid data at the third
poll) while the receive FIFO holds 0x12345641. -/
theorem uartlite_getc_waits_then_reads_once_witness :
    (uartlite_getc (simDev UARTLITE_STAT_REG) 2
        ⟨fun a => if a = UARTLITE_RX_FIFO then 0x12345641 else 0, [0x00, 0x04, 0x05]⟩).trace
      = [Event.load UARTLITE_STAT_REG 0x00, Event.load UARTLITE_STAT_REG 0x04] ∧
    (uartlite_getc (simDev UARTLITE_STAT_REG) 3
        ⟨fun a => if a = UARTLITE_RX_FIFO then 0x12345641 else 0, [0x00, 0x04, 0x05]⟩).ret
      = some 0x41 ∧
    (uartlite_getc (simDev UARTLITE_STAT_REG) 3
        ⟨fun a => if a = UARTLITE_RX_FIFO then 0x12345641 else 0, [0x00, 0x04, 0x05]⟩).trace
      = [Event.load UARTLITE_STAT_REG 0x00, Event.load UARTLITE_STAT_REG 0x04,
          Event.load UARTLITE_STAT_REG 0x05, Event.load UARTLITE_RX_FIFO 0x12345641] :=
  have h := uartlite_getc_waits_then_reads_once (simDev UARTLITE_STAT_REG)
    ⟨fun a => if a = UARTLITE_RX_FIFO then 0x12345641 else 0, [0x00, 0x04, 0x05]⟩ 2
    (by decide) (by decide)
  ⟨congrArg Run.trace (h.1 2 (by decide)), congrArg Run.ret (h.2 3 (by decide)).1,
    congrArg Run.trace (h.2 3 (by decide)).1⟩

/-! ## The timer driver -/

/-- C4: for every 32-bit `reload_value`, `timer_init` makes exactly two register accesses,
a write of `reload_value` to the load register followed by a write of
`ENABLE_TMR | AUTO_RELOAD | DOWN_COUNT` to the control/status register; on a register block
in any prior state the load register then holds `reload_value`, the control/status register
holds a word whose set bits are exactly bits 7, 4 and 1, and every other register is as
before. -/
theorem timer_init_programs_load_then_control {σ : Type} (d : Device σ) (reload_value : Nat)
    (h32 : reload_value < 2 ^ 32) (s : σ) (regs : Nat → Nat) :
    timer_init d reload_value s
      = ⟨some (), d.wr (d.wr s TIMER_TLR0 reload_value) TIMER_TCSR0
            (TIMER_CSR_ENABLE_TMR ||| TIMER_CSR_AUTO_RELOAD ||| TIMER_CSR_DOWN_COUNT),
          [Event.store TIMER_TLR0 reload_value,
           Event.store TIMER_TCSR0
            (TIMER_CSR_ENABLE_TMR ||| TIMER_CSR_AUTO_RELOAD ||| TIMER_CSR_DOWN_COUNT)]⟩ ∧
    (timer_init regBlock reload_value regs).hw TIMER_TLR0 = reload_value ∧
    (timer_init regBlock reload_value regs).hw TIMER_TCSR0
      = TIMER_CSR_ENABLE_TMR ||| TIMER_CSR_AUTO_RELOAD ||| TIMER_CSR_DOWN_COUNT ∧
    (∀ i, Nat.testBit ((timer_init regBlock reload_value regs).hw TIMER_TCSR0) i = true
      ↔ i = 7 ∨ i = 4 ∨ i = 1) ∧
    (∀ a, a ≠ TIMER_TLR0 → a ≠ TIMER_TCSR0 →
      (timer_init regBlock reload_value regs).hw a = regs a) := by
  have hr : reload_value % 2 ^ 32 = reload_value := Nat.mod_eq_of_lt h32
  have hc : (TIMER_CSR_ENABLE_TMR ||| TIMER_CSR_AUTO_RELOAD ||| TIMER_CSR_DOWN_COUNT) % 2 ^ 32
      = TIMER_CSR_ENABLE_TMR ||| TIMER_CSR_AUTO_RELOAD ||| TIMER_CSR_DOWN_COUNT := by decide
  have hne : TIMER_TLR0 ≠ TIMER_TCSR0 := by decide
  have hv : TIMER_CSR_ENABLE_TMR ||| TIMER_CSR_AUTO_RELOAD ||| TIMER_CSR_DOWN_COUNT = 146 := by
    decide
  have e : ∀ {τ : Type} (dv : Device τ) (t : τ), timer_init dv reload_value t
      = ⟨some (), dv.wr (dv.wr t TIMER_TLR0 reload_value) TIMER_TCSR0
            (TIMER_CSR_ENABLE_TMR ||| TIMER_CSR_AUTO_RELOAD ||| TIMER_CSR_DOWN_COUNT),
          [Event.store TIMER_TLR0 reload_value,
           Event.store TIMER_TCSR0
            (TIMER_CSR_ENABLE_TMR ||| TIMER_CSR_AUTO_RELOAD ||| TIMER_CSR_DOWN_COUNT)]⟩ := by
    intro τ dv t
    simp only [timer_init, store32, andThen_some, hr, hc, List.singleton_append]
  have hcsr : (timer_init regBlock reload_value regs).hw TIMER_TCSR0 = 146 := by
    rw [e regBlock regs, hv]
    simp [regBlock]
  refine ⟨e d s, ?_, ?_, ?_, ?_⟩
  · rw [e regBlock regs]
    simp [regBlock, Function.update_noteq hne]
  · rw [hcsr, hv]
  · intro i
    rw [hcsr]
    by_cases hi : i < 8
    · interval_cases i <;> decide
    · have hlt : 146 < 2 ^ i :=
        lt_of_lt_of_le (by norm_num) (Nat.pow_le_pow_right (by norm_num) (not_lt.mp hi))
      rw [Nat.testBit_lt_two_pow hlt]
      simp
      omega
  · intro a h1 h2
    rw [e regBlock regs]
    simp [regBlock, Function.update_noteq h1, Function.update_noteq h2]

/-- C4 at the spec's input: `timer_init(1000)` on a register block that held other values. -/
theorem timer_init_programs_load_then_control_witness :
    (timer_init regBlock 1000 (fun _ => 0xFFFFFFFF)).hw TIMER_TLR0 = 1000 ∧
    (timer_init regBlock 1000 (fun _ => 0xFFFFFFFF)).hw TIMER_TCSR0 = 0x92 ∧
    (timer_init regBlock 1000 (fun _ => 0xFFFFFFFF)).hw TIMER_TCR0 = 0xFFFFFFFF ∧
    (timer_init regBlock 1000 (fun _ => 0xFFFFFFFF)).trace
      = [Event.store TIMER_TLR0 1000, Event.store TIMER_TCSR0 0x92] :=
  have h := timer_init_programs_load_then_control regBlock 1000 (by decide)
    (fun _ => 0xFFFFFFFF) (fun _ => 0xFFFFFFFF)
  ⟨h.2.1, h.2.2.1, h.2.2.2.2 TIMER_TCR0 (by decide) (by decide), congrArg Run.trace h.1⟩

/-- C5: `timer_read` makes exactly one register access, a read of the counter register, and
returns the 32-bit value read; on a register block whose counter register holds a 32-bit
value it returns that value and leaves every register (control/status, load, UART) as it
was. -/
theorem timer_read_returns_counter_no_write {σ : Type} (d : Device σ) (s : σ)
    (regs : Nat → Nat) (h32 : regs TIMER_TCR0 < 2 ^ 32) :
    timer_read d s
      = ⟨some (readAt d TIMER_TCR0 0 s), (d.rd s TIMER_TCR0).2,
          [Event.load TIMER_TCR0 (readAt d TIMER_TCR0 0 s)]⟩ ∧
    stores (timer_read d s).trace = [] ∧
    (timer_read regBlock regs).ret = some (regs TIMER_TCR0) ∧
    (timer_read regBlock regs).hw = regs ∧
    (timer_read regBlock regs).trace = [Event.load TIMER_TCR0 (regs TIMER_TCR0)] := by
  have hm : regs TIMER_TCR0 % 2 ^ 32 = regs TIMER_TCR0 := Nat.mod_eq_of_lt h32
  refine ⟨rfl, rfl, ?_, rfl, ?_⟩
  · simp only [timer_read, load32, regBlock, hm]
  · simp only [timer_read, load32, regBlock, hm]

/-- C5 at a concrete input: a running timer whose counter holds 0xDEADBEEF. -/
theorem timer_read_returns_counter_no_write_witness :
    (timer_read regBlock
        (fun a => if a = TIMER_TCR0 then 0xDEADBEEF else if a = TIMER_TCSR0 then 0x92
          else 1000)).ret = some 0xDEADBEEF ∧
    (timer_read regBlock
        (fun a => if a = TIMER_TCR0 then 0xDEADBEEF else if a = TIMER_TCSR0 then 0x92
          else 1000)).hw TIMER_TCSR0 = 0x92 ∧
    (timer_read regBlock
        (fun a => if a = TIMER_TCR0 then 0xDEADBEEF else if a = TIMER_TCSR0 then 0x92
          else 1000)).hw TIMER_TLR0 = 1000 :=
  have h := timer_read_returns_counter_no_write regBlock
    (fun a => if a = TIMER_TCR0 then 0xDEADBEEF else if a = TIMER_TCSR0 then 0x92 else 1000)
    (fun a => if a = TIMER_TCR0 then 0xDEADBEEF else if a = TIMER_TCSR0 then 0x92 else 1000)
    (by decide)
  ⟨h.2.2.1, congrFun h.2.2.2.1 TIMER_TCSR0, congrFun h.2.2.2.1 TIMER_TLR0⟩

/-- A polling loop makes no write, whatever its budget. -/
theorem stores_spinWhile {σ : Type} (d : Device σ) (reg : Nat) (busy : Nat → Bool) :
    ∀ (n : Nat) (s : σ), stores (spinWhile d reg busy n s).trace = [] := by
  intro n
  induction n with
  | zero => intro s; rfl
  | succ n ih =>
    intro s
    simp only [spinWhile, load32, andThen_some, stores_append]
    split
    · rw [ih]; rfl
    · rfl

theorem loadsOf_polls {σ : Type} (d : Device σ) (reg : Nat) :
    ∀ (n : Nat) (s : σ), loadsOf reg (polls d reg n s) = n := by
  intro n
  induction n with
  | zero => intro s; rfl
  | succ n ih =>
    intro s
    have h := ih (d.rd s reg).2
    rw [polls_succ]
    simp only [loadsOf] at h ⊢
    rw [List.countP_cons, h]
    simp

/-- C6: if, once the timer is armed with reload value `x`, the first `k` reads of the
control/status register have bit 8 (0x100) clear and the next one (position `k + 1`) has it
set, then `timer_delay x`, and `delay_ms ms` for every `ms` with `ms * 100000 mod 2^32 = x`,
after their two arming writes only read the control/status register: stopped after
`budget ≤ k` polls they have made no further write, and otherwise they return after exactly
`k + 1` reads; when the bit is set at the first poll (`k = 0`) that is a single read. -/
theorem expiry_wait_returns_at_first_expired_poll {σ : Type} (d : Device σ) (s : σ)
    (x : Nat) (hx : x < 2 ^ 32) (k : Nat)
    (hrun : ∀ i < k, readAt d TIMER_TCSR0 i (armed d x s) &&& 0x100 = 0)
    (hexp : readAt d TIMER_TCSR0 k (armed d x s) &&& 0x100 ≠ 0) :
    (∀ budget, budget ≤ k →
      timer_delay d budget x s
        = ⟨none, afterReads d TIMER_TCSR0 budget (armed d x s),
            [Event.store TIMER_TLR0 x, Event.store TIMER_TCSR0 0x92]
              ++ polls d TIMER_TCSR0 budget (armed d x s)⟩ ∧
      ∀ ms, (ms * 100000) % 2 ^ 32 = x → delay_ms d budget ms s = timer_delay d budget x s) ∧
    (∀ budget, k < budget →
      timer_delay d budget x s
        = ⟨some (), afterReads d TIMER_TCSR0 (k + 1) (armed d x s),
            [Event.store TIMER_TLR0 x, Event.store TIMER_TCSR0 0x92]
              ++ polls d TIMER_TCSR0 (k + 1) (armed d x s)⟩ ∧
      loadsOf TIMER_TCSR0 (timer_delay d budget x s).trace = k + 1 ∧
      ∀ ms, (ms * 100000) % 2 ^ 32 = x → delay_ms d budget ms s = timer_delay d budget x s) := by
  have hxm : x % 2 ^ 32 = x := Nat.mod_eq_of_lt hx
  have hsame : ∀ budget ms, (ms * 100000) % 2 ^ 32 = x →
      delay_ms d budget ms s = timer_delay d budget x s := by
    intro budget ms hms
    simp only [delay_ms, timer_delay, timer_init, hms, store32, andThen_some]
    rfl
  constructor
  · intro budget hle
    have h := spinWhile_busy d TIMER_TCSR0 (fun v => !(v &&& 0x100 != 0))
      budget (armed d x s) (fun i hi => by simpa using hrun i (by omega))
    refine ⟨?_, hsame budget⟩
    simp only [timer_delay, store32, andThen_some, hxm]
    rw [show d.wr (d.wr s TIMER_TLR0 x) TIMER_TCSR0 (146 % 2 ^ 32) = armed d x s from rfl, h]
    rfl
  · intro budget hlt
    have h := spinWhile_done d TIMER_TCSR0 (fun v => !(v &&& 0x100 != 0))
      k (armed d x s) budget (fun i hi => by simpa using hrun i hi) (by simpa using hexp) hlt
    have e : timer_delay d budget x s
        = ⟨some (), afterReads d TIMER_TCSR0 (k + 1) (armed d x s),
            [Event.store TIMER_TLR0 x, Event.store TIMER_TCSR0 0x92]
              ++ polls d TIMER_TCSR0 (k + 1) (armed d x s)⟩ := by
      simp only [timer_delay, store32, andThen_some, hxm]
      rw [show d.wr (d.wr s TIMER_TLR0 x) TIMER_TCSR0 (146 % 2 ^ 32) = armed d x s from rfl, h]
      rfl
    refine ⟨e, ?_, hsame budget⟩
    rw [e]
    have hp := loadsOf_polls d TIMER_TCSR0 (k + 1) (armed d x s)
    simp only [loadsOf] at hp ⊢
    rw [List.countP_append, hp]
    simp

/-- C6 at concrete inputs: the expired bit already set at the first poll (one read), and
set at the third poll only (three reads); `delay_ms 1` behaves as `timer_delay 100000`. -/
theorem expiry_wait_returns_at_first_expired_poll_witness :
    (timer_delay (simDev TIMER_TCSR0) 1 100000 ⟨fun _ => 0, [0x192]⟩).ret = some () ∧
    (timer_delay (simDev TIMER_TCSR0) 1 100000 ⟨fun _ => 0, [0x192]⟩).trace
      = [Event.store TIMER_TLR0 100000, Event.store TIMER_TCSR0 0x92,
          Event.load TIMER_TCSR0 0x192] ∧
    (delay_ms (simDev TIMER_TCSR0) 3 1 ⟨fun _ => 0, [0x92, 0x92, 0x192]⟩).ret = some () ∧
    (delay_ms (simDev TIMER_TCSR0) 3 1 ⟨fun _ => 0, [0x92, 0x92, 0x192]⟩).trace
      = [Event.store TIMER_TLR0 100000, Event.store TIMER_TCSR0 0x92,
          Event.load TIMER_TCSR0 0x92, Event.load TIMER_TCSR0 0x92,
          Event.load TIMER_TCSR0 0x192] ∧
    (delay_ms (simDev TIMER_TCSR0) 2 1 ⟨fun _ => 0, [0x92, 0x92, 0x192]⟩).ret = none :=
  have h0 := expiry_wait_returns_at_first_expired_poll (simDev TIMER_TCSR0)
    ⟨fun _ => 0, [0x192]⟩ 100000 (by decide) 0 (by decide) (by decide)
  have h2 := expiry_wait_returns_at_first_expired_poll (simDev TIMER_TCSR0)
    ⟨fun _ => 0, [0x92, 0x92, 0x192]⟩ 100000 (by decide) 2 (by decide) (by decide)
  ⟨congrArg Run.ret (h0.2 1 (by decide)).1, congrArg Run.trace (h0.2 1 (by decide)).1,
    ((h2.2 3 (by decide)).2.2 1 (by decide)).symm ▸ congrArg Run.ret (h2.2 3 (by decide)).1,
    ((h2.2 3 (by decide)).2.2 1 (by decide)).symm ▸ congrArg Run.trace (h2.2 3 (by decide)).1,
    ((h2.1 2 (by decide)).2 1 (by decide)).symm ▸ congrArg Run.ret (h2.1 2 (by decide)).1⟩

/-- C8 as stated fails: the control word `timer_delay` writes is exactly the word
`timer_init` writes, `TIMER_CSR_ENABLE_TMR | TIMER_CSR_AUTO_RELOAD | TIMER_CSR_DOWN_COUNT`. -/
theorem timer_delay_literal_not_different_from_flags :
    ¬ (csrWrites (timer_delay regBlock 1 50000000 (fun _ => 0)).trace
        ≠ [TIMER_CSR_ENABLE_TMR ||| TIMER_CSR_AUTO_RELOAD ||| TIMER_CSR_DOWN_COUNT]) := by
  decide

/-- C8, amended: for every device, budget and cycle count, `timer_delay` writes the
control/status register exactly once, and the word it writes, 0x92, is the word
`timer_init` writes, `TIMER_CSR_ENABLE_TMR | TIMER_CSR_AUTO_RELOAD | TIMER_CSR_DOWN_COUNT`:
bits 7, 4 and 1 set and no other bit. -/
theorem timer_delay_control_word_is_named_flags {σ : Type} (d : Device σ) (budget cycles : Nat)
    (s : σ) :
    csrWrites (timer_delay d budget cycles s).trace
      = [TIMER_CSR_ENABLE_TMR ||| TIMER_CSR_AUTO_RELOAD ||| TIMER_CSR_DOWN_COUNT] ∧
    csrWrites (timer_delay d budget cycles s).trace = csrWrites (timer_init d cycles s).trace ∧
    (0x92 : Nat) = TIMER_CSR_ENABLE_TMR ||| TIMER_CSR_AUTO_RELOAD ||| TIMER_CSR_DOWN_COUNT ∧
    (∀ i, Nat.testBit 0x92 i = true ↔ i = 7 ∨ i = 4 ∨ i = 1) := by
  have hs : ∀ t, stores t = [] → csrWrites t = [] := by
    intro t
    induction t with
    | nil => intro _; rfl
    | cons e t ih =>
      intro h
      cases e with
      | load a v =>
        simp only [stores, List.filter_cons] at h
        simp only [csrWrites, List.filterMap_cons]
        exact ih h
      | store a v => simp [stores] at h
  have hw := hs _ (stores_spinWhile d TIMER_TCSR0 (fun v => !(v &&& 0x100 != 0)) budget
    (d.wr (d.wr s TIMER_TLR0 (cycles % 2 ^ 32)) TIMER_TCSR0 (0x92 % 2 ^ 32)))
  have hne : TIMER_TLR0 ≠ TIMER_TCSR0 := by decide
  have e1 : csrWrites (timer_delay d budget cycles s).trace = [0x92] := by
    simp only [timer_delay, store32, andThen_some]
    simp only [csrWrites, List.filterMap_append] at hw ⊢
    rw [hw]
    simp [hne]
  have e2 : csrWrites (timer_init d cycles s).trace = [0x92] := by
    simp only [timer_init, store32, andThen_some]
    simp [csrWrites, hne]
    decide
  refine ⟨e1.trans (by decide), e1.trans e2.symm, by decide, ?_⟩
  intro i
  by_cases hi : i < 8
  · interval_cases i <;> decide
  · have hlt : 0x92 < 2 ^ i :=
      lt_of_lt_of_le (by norm_num) (Nat.pow_le_pow_right (by norm_num) (not_lt.mp hi))
    rw [Nat.testBit_lt_two_pow hlt]
    simp
    omega

/-- C10: for every `ms`, whatever the budget, the first register access of `delay_ms ms` is
the write of `ms * 100000 mod 2^32` to the timer load register, and its only other write is
the control word; the value written equals the exact product `ms * 100000` if and only if
`ms ≤ 42949`, and for `ms = 42950` it is 32704. -/
theorem delay_ms_reload_wraps_above_42949 {σ : Type} (d : Device σ) (budget ms : Nat) (s : σ) :
    (delay_ms d budget ms s).trace.head?
      = some (Event.store TIMER_TLR0 ((ms * 100000) % 2 ^ 32)) ∧
    stores (delay_ms d budget ms s).trace
      = [Event.store TIMER_TLR0 ((ms * 100000) % 2 ^ 32),
         Event.store TIMER_TCSR0
          (TIMER_CSR_ENABLE_TMR ||| TIMER_CSR_AUTO_RELOAD ||| TIMER_CSR_DOWN_COUNT)] ∧
    ((ms * 100000) % 2 ^ 32 = ms * 100000 ↔ ms ≤ 42949) ∧
    stores (delay_ms d budget 42950 s).trace
      = [Event.store TIMER_TLR0 32704, Event.store TIMER_TCSR0 0x92] := by
  have hc : (TIMER_CSR_ENABLE_TMR ||| TIMER_CSR_AUTO_RELOAD ||| TIMER_CSR_DOWN_COUNT) % 2 ^ 32
      = TIMER_CSR_ENABLE_TMR ||| TIMER_CSR_AUTO_RELOAD ||| TIMER_CSR_DOWN_COUNT := by decide
  have hst : ∀ m, stores (delay_ms d budget m s).trace
      = [Event.store TIMER_TLR0 ((m * 100000) % 2 ^ 32),
         Event.store TIMER_TCSR0
          (TIMER_CSR_ENABLE_TMR ||| TIMER_CSR_AUTO_RELOAD ||| TIMER_CSR_DOWN_COUNT)] := by
    intro m
    simp only [delay_ms, timer_init, store32, andThen_some, stores_append, stores_spinWhile,
      Nat.mod_mod, hc]
    rfl
  refine ⟨?_, hst ms, ?_, ?_⟩
  · simp only [delay_ms, timer_init, store32, andThen_some, Nat.mod_mod]
    rfl
  · constructor
    · intro h
      by_contra hgt
      have : ms * 100000 % 2 ^ 32 < 2 ^ 32 := Nat.mod_lt _ (by norm_num)
      omega
    · intro h
      exact Nat.mod_eq_of_lt (by omega)
  · rw [hst 42950]
    decide

/-! ## Strings over the UART -/

/-- A transmit FIFO that drains from every state clears along every string. -/
theorem txClearsAlong_of_drains {σ : Type} (d : Device σ) (hd : TxDrains d) :
    ∀ (str : List Nat) (s : σ), TxClearsAlong d str s := by
  classical
  intro str
  induction str with
  | nil => intro s; trivial
  | cons c rest ih =>
    intro s
    exact Or.inr ⟨Nat.find (hd s), fun i hi => Nat.find_min (hd s) hi, Nat.find_spec (hd s),
      ih _⟩

/-- When the TX-FIFO-full bit clears along the string, `uartlite_puts` returns for every
large enough budget, and its writes are the bytes before the first zero byte, each to the
transmit FIFO, in order. -/
theorem uartlite_puts_returns {σ : Type} (d : Device σ) :
    ∀ (str : List Nat) (s : σ), TxClearsAlong d str s → ∃ n, ∀ budget, n ≤ budget →
      (uartlite_puts d budget str s).ret = some () ∧
      stores (uartlite_puts d budget str s).trace
        = ((str.map (· % 256)).takeWhile (· ≠ 0)).map (Event.store UARTLITE_TX_FIFO) := by
  intro str
  induction str with
  | nil => intro s _; exact ⟨0, fun _ _ => ⟨rfl, rfl⟩⟩
  | cons c rest ih =>
    intro s hd
    by_cases hc : c % 256 = 0
    · refine ⟨0, fun budget _ => ?_⟩
      simp [uartlite_puts, hc, stores]
    · obtain ⟨k, hfull, hclear, hrest⟩ := hd.resolve_left hc
      obtain ⟨n, hn⟩ := ih _ hrest
      refine ⟨max (k + 1) n, fun budget hb => ?_⟩
      have hspin := spinWhile_done d UARTLITE_STAT_REG
        (fun v => v &&& UARTLITE_SR_TX_FIFO_FULL != 0) k s budget
        (fun i hi => by simpa using hfull i hi) (by simpa using hclear) (by omega)
      have hb32 : c % 256 % 2 ^ 32 = c % 256 := by omega
      have h1 : uartlite_putc d budget c s
          = ⟨some (), d.wr (afterReads d UARTLITE_STAT_REG (k + 1) s) UARTLITE_TX_FIFO (c % 256),
              polls d UARTLITE_STAT_REG (k + 1) s
                ++ [Event.store UARTLITE_TX_FIFO (c % 256)]⟩ := by
        simp only [uartlite_putc, hspin, andThen_some, store32, hb32]
      have h2 := hn budget (by omega)
      simp only [uartlite_puts, hc, if_false, h1, andThen_some, h2.1, stores_append,
        stores_polls, h2.2]
      simp [stores, hc]

/-- The transmit FIFO of `busyUart`, full for `n` polls, is no longer full at poll `n`. -/
theorem busyUart_drains : TxDrains busyUart := by
  have hstate : ∀ (n m : Nat), afterReads busyUart UARTLITE_STAT_REG n m = m - n := by
    intro n
    induction n with
    | zero => intro m; rfl
    | succ n ih =>
      intro m
      simp only [afterReads]
      rw [show (busyUart.rd m UARTLITE_STAT_REG).2 = m - 1 from rfl, ih]
      omega
  intro s
  refine ⟨s, ?_⟩
  simp only [readAt, hstate, Nat.sub_self]
  decide

/-- C2: for every byte string `str`, when the TX-FIFO-full bit is eventually read clear at
each character, `uartlite_puts str` returns for every large enough budget, and its register
writes are exactly one transmit FIFO write per byte of `str` before the first zero byte, in
the order of the bytes, with none for the terminating zero. -/
theorem uartlite_puts_writes_bytes_in_order {σ : Type} (d : Device σ)
    (str : List Nat) (hbytes : ∀ c ∈ str, c < 256) (s : σ) (hd : TxClearsAlong d str s) :
    ∃ n, ∀ budget, n ≤ budget →
      (uartlite_puts d budget str s).ret = some () ∧
      stores (uartlite_puts d budget str s).trace
        = (str.takeWhile (· ≠ 0)).map (Event.store UARTLITE_TX_FIFO) := by
  obtain ⟨n, hn⟩ := uartlite_puts_returns d str s hd
  refine ⟨n, fun budget hb => ⟨(hn budget hb).1, ?_⟩⟩
  rw [(hn budget hb).2]
  have hid : str.map (· % 256) = str := by
    conv_rhs => rw [← List.map_id str]
    exact List.map_congr_left (fun c hc => Nat.mod_eq_of_lt (hbytes c hc))
  rw [hid]

/-- C2 at the spec's input: the string "AB" gives the two transmit writes 0x41, 0x42, also
when more bytes follow its terminator, and the empty string gives none. -/
theorem uartlite_puts_writes_bytes_in_order_witness :
    (∃ n, ∀ budget, n ≤ budget →
      (uartlite_puts busyUart budget [0x41, 0x42, 0, 0x43] 1).ret = some () ∧
      stores (uartlite_puts busyUart budget [0x41, 0x42, 0, 0x43] 1).trace
        = [Event.store UARTLITE_TX_FIFO 0x41, Event.store UARTLITE_TX_FIFO 0x42]) ∧
    stores (uartlite_puts busyUart 3 (cstr "AB") 1).trace
      = [Event.store UARTLITE_TX_FIFO 0x41, Event.store UARTLITE_TX_FIFO 0x42] ∧
    stores (uartlite_puts busyUart 3 (cstr "") 1).trace = [] :=
  ⟨uartlite_puts_writes_bytes_in_order busyUart [0x41, 0x42, 0, 0x43] (by decide) 1
      (txClearsAlong_of_drains busyUart busyUart_drains _ _),
    by decide, by decide⟩

/-! ## The fill loop of `problematic_function` -/

/-- Whatever the budget, a fill loop that ends has assigned only indices `j` with
`i ≤ j ≤ value` and `j < 64`, has put `'A' + j % 26` at each of them, and has left the
elements below `i` and `debug_counter` alone. -/
theorem fill_loop_sound (value : Int) :
    ∀ (budget : Nat) (i : Int) (g g' : Globals), fill_loop value budget i g = some g' →
      (∀ j, i ≤ j → j ≤ value → j < 64 →
        g'.debug_buffer j = ((65 + Int.tmod j 26) % 256).toNat) ∧
      (∀ j, j < i → g'.debug_buffer j = g.debug_buffer j) ∧
      (∃ new, g'.stored = g.stored ++ new ∧ ∀ j ∈ new, i ≤ j ∧ j ≤ value ∧ j < 64) ∧
      g'.debug_counter = g.debug_counter := by
  intro budget
  induction budget with
  | zero => intro i g g' h; simp [fill_loop] at h
  | succ budget ih =>
    intro i g g' h
    by_cases hc : i ≤ value ∧ i < 64
    · simp only [fill_loop, hc, and_self, if_true] at h
      obtain ⟨h1, h2, ⟨new, hnew, hin⟩, h4⟩ := ih (i + 1) _ g' h
      refine ⟨?_, ?_, ⟨i :: new, ?_, ?_⟩, ?_⟩
      · intro j hij hjv hj64
        by_cases hji : j = i
        · subst hji
          rw [h2 j (by omega)]
          simp [Globals.assign]
        · exact h1 j (by omega) hjv hj64
      · intro j hji
        rw [h2 j (by omega)]
        simp [Globals.assign, Function.update_noteq (ne_of_lt hji)]
      · rw [hnew]
        simp [Globals.assign]
      · intro j hj
        rcases List.mem_cons.mp hj with rfl | hj
        · exact ⟨le_refl _, hc.1, hc.2⟩
        · have := hin j hj
          exact ⟨by omega, this.2.1, this.2.2⟩
      · rw [h4]; rfl
    · simp only [fill_loop, hc, if_false, Option.some.injEq] at h
      subst h
      refine ⟨?_, fun _ _ => rfl, ⟨[], by simp, by simp⟩, rfl⟩
      intro j hij hjv hj64
      exact absurd ⟨by omega, by omega⟩ hc

/-- With a budget above the number of iterations left, the fill loop ends, having assigned
the indices from `i` upwards one by one. -/
theorem fill_loop_run (value : Int) :
    ∀ (n : Nat) (i : Int) (g : Globals) (budget : Nat),
      (min (value + 1) 64 - i).toNat = n → n < budget →
      ∃ g', fill_loop value budget i g = some g' ∧
        g'.stored = g.stored ++ (List.range n).map (fun (t : Nat) => i + (t : Int)) := by
  intro n
  induction n with
  | zero =>
    intro i g budget hn hb
    obtain ⟨m, rfl⟩ : ∃ m, budget = m + 1 := ⟨budget - 1, by omega⟩
    have hc : ¬ (i ≤ value ∧ i < 64) := by
      intro hc
      have : 0 < min (value + 1) 64 - i := by omega
      omega
    exact ⟨g, by simp [fill_loop, hc], by simp⟩
  | succ n ih =>
    intro i g budget hn hb
    obtain ⟨m, rfl⟩ : ∃ m, budget = m + 1 := ⟨budget - 1, by omega⟩
    have hc : i ≤ value ∧ i < 64 := by omega
    obtain ⟨g', hg', hst⟩ :=
      ih (i + 1) (g.assign i ((65 + Int.tmod i 26) % 256).toNat) m (by omega) (by omega)
    refine ⟨g', by simp only [fill_loop, hc, and_self, if_true, hg'], ?_⟩
    rw [hst, List.range_succ_eq_map]
    simp [Globals.assign, Function.comp_def]
    intro a _
    ring

/-- C9 as stated fails: no value, budget or prior state makes the fill loop assign
`debug_buffer` at an index that is negative or at least 64. -/
theorem fill_loop_never_leaves_buffer :
    ¬ ∃ (value : Int) (budget : Nat) (g g' : Globals),
        fill_loop value budget 0 g = some g' ∧
        ∃ j ∈ g'.stored.drop g.stored.length, j < 0 ∨ 64 ≤ j := by
  rintro ⟨value, budget, g, g', h, j, hj, hout⟩
  obtain ⟨_, _, ⟨new, hnew, hin⟩, _⟩ := fill_loop_sound value budget 0 g g' h
  rw [hnew, List.drop_left] at hj
  have := hin j hj
  omega

/-- C9, amended: for every int `value` and every prior state, the fill loop (with a budget
of at least its 65 tests of the condition) ends having assigned `debug_buffer` exactly at
the indices `0, 1, ..., min(value, 63)` in this order (none when `value` is negative), each
of them inside the 64 bytes of the buffer. -/
theorem fill_loop_writes_inside_buffer (value : Int) (g : Globals) (budget : Nat)
    (hb : 65 ≤ budget) :
    ∃ g', fill_loop value budget 0 g = some g' ∧
      g'.stored = g.stored ++ (List.range (min (value + 1) 64).toNat).map Int.ofNat ∧
      ∀ j ∈ g'.stored.drop g.stored.length, 0 ≤ j ∧ j < 64 := by
  obtain ⟨g', hg', hst⟩ :=
    fill_loop_run value (min (value + 1) 64).toNat 0 g budget (by simp) (by omega)
  have hst2 : g'.stored = g.stored ++ (List.range (min (value + 1) 64).toNat).map Int.ofNat := by
    rw [hst]
    congr 1
    apply List.map_congr_left
    intro t _
    simp
  refine ⟨g', hg', hst2, ?_⟩
  intro j hj
  rw [hst2, List.drop_left] at hj
  obtain ⟨t, ht, rfl⟩ := List.mem_map.mp hj
  have := List.mem_range.mp ht
  constructor
  · exact Int.ofNat_nonneg t
  · show (t : Int) < 64
    omega

/-- C9, amended, at concrete inputs: the values 5 and 1000 on a zeroed buffer. -/
theorem fill_loop_writes_inside_buffer_witness :
    (∃ g', fill_loop 5 65 0 ⟨0, fun _ => 0, []⟩ = some g' ∧
      g'.stored = [0, 1, 2, 3, 4, 5] ∧
      ∀ j ∈ g'.stored.drop 0, 0 ≤ j ∧ j < 64) ∧
    (∃ g', fill_loop 1000 65 0 ⟨0, fun _ => 0, []⟩ = some g' ∧
      g'.stored = (List.range 64).map Int.ofNat ∧
      ∀ j ∈ g'.stored.drop 0, 0 ≤ j ∧ j < 64) :=
  ⟨fill_loop_writes_inside_buffer 5 ⟨0, fun _ => 0, []⟩ 65 (by decide),
    fill_loop_writes_inside_buffer 1000 ⟨0, fun _ => 0, []⟩ 65 (by decide)⟩

/-! ## The error path of `problematic_function` -/

theorem txBytes_append (t u : List Event) : txBytes (t ++ u) = txBytes t ++ txBytes u := by
  simp [txBytes]

theorem txBytes_of_no_stores : ∀ t : List Event, stores t = [] → txBytes t = [] := by
  intro t
  induction t with
  | nil => intro _; rfl
  | cons e t ih =>
    intro h
    cases e with
    | load a v =>
      simp only [stores, List.filter_cons] at h
      simp only [txBytes, List.filterMap_cons]
      exact ih h
    | store a v => simp [stores] at h

/-- A byte transmitted by two pieces of code in sequence is transmitted by one of them. -/
theorem mem_txBytes_andThen {σ α β : Type} (r : Run σ α) (f : α → σ → Run σ β) (v : Nat)
    (h : v ∈ txBytes (r.andThen f).trace) :
    v ∈ txBytes r.trace ∨ ∃ a, v ∈ txBytes (f a r.hw).trace := by
  unfold Run.andThen at h
  cases hr : r.ret with
  | none =>
    rw [hr] at h
    exact Or.inl h
  | some a =>
    rw [hr] at h
    simp only [txBytes_append, List.mem_append] at h
    exact h.imp id (fun h => ⟨a, h⟩)

/-- Whatever its budget, `uartlite_putc c` transmits nothing but `c`. -/
theorem mem_txBytes_putc {σ : Type} (d : Device σ) (budget c : Nat) (s : σ) (v : Nat)
    (h : v ∈ txBytes (uartlite_putc d budget c s).trace) : v = c % 256 := by
  rcases mem_txBytes_andThen _ _ v h with h | ⟨_, h⟩
  · rw [txBytes_of_no_stores _ (stores_spinWhile _ _ _ _ _)] at h
    simp at h
  · have hb32 : c % 256 % 2 ^ 32 = c % 256 := by omega
    simp only [store32, hb32] at h
    simpa [txBytes] using h

/-- Whatever its budget, `uartlite_puts str` transmits nothing but bytes of `str`. -/
theorem mem_txBytes_puts {σ : Type} (d : Device σ) (budget : Nat) (v : Nat) :
    ∀ (str : List Nat) (s : σ), v ∈ txBytes (uartlite_puts d budget str s).trace →
      ∃ c ∈ str, v = c % 256 := by
  intro str
  induction str with
  | nil => intro s h; simp [uartlite_puts, txBytes] at h
  | cons c rest ih =>
    intro s h
    by_cases hc : c % 256 = 0
    · simp [uartlite_puts, hc, txBytes] at h
    · simp only [uartlite_puts, hc, if_false] at h
      rcases mem_txBytes_andThen _ _ v h with h | ⟨_, h⟩
      · exact ⟨c, List.mem_cons_self _ _, mem_txBytes_putc d budget c s v h⟩
      · obtain ⟨c', hc', hv⟩ := ih _ h
        exact ⟨c', List.mem_cons_of_mem _ hc', hv⟩

/-- Whatever its budget, the print loop transmits nothing but elements of `debug_buffer`
at indices `j` with `i ≤ j < value` and `j < 64`. -/
theorem mem_txBytes_print_loop {σ : Type} (d : Device σ) (spin : Nat) (value : Int)
    (g : Globals) (v : Nat) :
    ∀ (budget : Nat) (i : Int) (s : σ),
      v ∈ txBytes (print_loop d spin value g budget i s).trace →
      ∃ j, i ≤ j ∧ j < value ∧ j < 64 ∧ v = g.debug_buffer j % 256 := by
  intro budget
  induction budget with
  | zero => intro i s h; simp [print_loop, txBytes] at h
  | succ budget ih =>
    intro i s h
    by_cases hc : i < value ∧ i < 64
    · simp only [print_loop, hc, and_self, if_true] at h
      rcases mem_txBytes_andThen _ _ v h with h | ⟨_, h⟩
      · exact ⟨i, le_refl _, hc.1, hc.2, mem_txBytes_putc d spin _ s v h⟩
      · obtain ⟨j, h1, h2, h3, h4⟩ := ih _ _ h
        exact ⟨j, by omega, h2, h3, h4⟩
    · simp [print_loop, hc, txBytes] at h

/-- C7: when the TX-FIFO-full bit is eventually read clear at each character of the error
message, for every negative `value` and every large enough budget
`problematic_function value` returns with the globals
(`debug_counter`, every byte of `debug_buffer`) as they were, and its register writes are
exactly the bytes of "Error: Negative value!\n", each to the transmit FIFO, in order; for
every non-negative `value`, whatever the budget, the bytes it transmits do not contain the
error message. -/
theorem problematic_function_negative_reports_and_returns {σ : Type} (d : Device σ)
    (value : Int) (g : Globals) (s : σ)
    (hd : TxClearsAlong d (cstr "Error: Negative value!\n") s) :
    (value < 0 → ∃ n, ∀ budget, n ≤ budget →
      (problematic_function d budget value g s).ret = some g ∧
      stores (problematic_function d budget value g s).trace
        = (cstr "Error: Negative value!\n").map (Event.store UARTLITE_TX_FIFO)) ∧
    (0 ≤ value → ∀ budget,
      ¬ (cstr "Error: Negative value!\n"
          <:+: txBytes (problematic_function d budget value g s).trace)) := by
  constructor
  · intro hneg
    obtain ⟨n, hn⟩ := uartlite_puts_returns d (cstr "Error: Negative value!\n") s hd
    refine ⟨n, fun budget hb => ?_⟩
    obtain ⟨hret, hst⟩ := hn budget hb
    have hmsg : ((cstr "Error: Negative value!\n").map (· % 256)).takeWhile (· ≠ 0)
        = cstr "Error: Negative value!\n" := by decide
    rw [hmsg] at hst
    simp only [problematic_function, hneg, if_true, Run.andThen, hret, List.append_nil]
    exact ⟨trivial, hst⟩
  · intro hpos budget hinf
    have hbang : 0x21 ∈ txBytes (problematic_function d budget value g s).trace :=
      hinf.subset (by decide)
    have hnot : ¬ value < 0 := not_lt.mpr hpos
    simp only [problematic_function, hnot, if_false] at hbang
    cases hf : fill_loop value budget 0 g with
    | none =>
      rw [hf] at hbang
      simp [txBytes] at hbang
    | some g1 =>
      rw [hf] at hbang
      simp only at hbang
      obtain ⟨hbuf, _, _, _⟩ := fill_loop_sound value budget 0 g g1 hf
      rcases mem_txBytes_andThen _ _ _ hbang with h | ⟨_, h⟩
      · obtain ⟨c, hc, hv⟩ := mem_txBytes_puts d budget _ _ _ h
        revert hv
        revert c
        decide
      · rcases mem_txBytes_andThen _ _ _ h with h | ⟨_, h⟩
        · obtain ⟨j, h0, hjv, hj64, hv⟩ := mem_txBytes_print_loop d budget value _ _ _ _ _ h
          have hb := hbuf j h0 (le_of_lt hjv) hj64
          simp only at hv
          rw [hb, Int.tmod_eq_emod h0 (by norm_num)] at hv
          omega
        · rcases mem_txBytes_andThen _ _ _ h with h | ⟨_, h⟩
          · obtain ⟨c, hc, hv⟩ := mem_txBytes_puts d budget _ _ _ h
            revert hv
            revert c
            decide
          · simp [txBytes] at h

/-- C7 at the input of `main`'s Test 2, `problematic_function(-1)`, on a UART whose
transmit FIFO is full for two polls after each byte; and `problematic_function(5)`. -/
theorem problematic_function_negative_reports_and_returns_witness :
    (∃ n, ∀ budget, n ≤ budget →
      (problematic_function busyUart budget (-1) ⟨7, fun _ => 0x2E, []⟩ 0).ret
        = some ⟨7, fun _ => 0x2E, []⟩ ∧
      stores (problematic_function busyUart budget (-1) ⟨7, fun _ => 0x2E, []⟩ 0).trace
        = (cstr "Error: Negative value!\n").map (Event.store UARTLITE_TX_FIFO)) ∧
    (∀ budget, ¬ (cstr "Error: Negative value!\n"
      <:+: txBytes (problematic_function busyUart budget 5 ⟨7, fun _ => 0x2E, []⟩ 0).trace)) ∧
    txBytes (problematic_function busyUart 65 (-1) ⟨7, fun _ => 0x2E, []⟩ 0).trace
      = cstr "Error: Negative value!\n" ∧
    txBytes (problematic_function busyUart 65 5 ⟨7, fun _ => 0x2E, []⟩ 0).trace
      = cstr "Debug buffer: ABCDE\n" :=
  ⟨(problematic_function_negative_reports_and_returns busyUart (-1)
      ⟨7, fun _ => 0x2E, []⟩ 0 (txClearsAlong_of_drains busyUart busyUart_drains _ _)).1
      (by decide),
    (problematic_function_negative_reports_and_returns busyUart 5
      ⟨7, fun _ => 0x2E, []⟩ 0 (txClearsAlong_of_drains busyUart busyUart_drains _ _)).2
      (by decide),
    by decide, by decide⟩

end MicroblazeV
